import Mathlib

/-!
# Verification of the ray tracer `src/rt.c`

The C program computes with `double`.  The embedding below idealises `double`
as an arbitrary linearly ordered field `F` (the rationals, where everything
evaluates, or the reals): rounding, infinities and NaN are not modelled, and
`x / 0` is the field's `0` rather than an IEEE infinity.  The libm function
`sqrt` is not part of the repository; every function that calls it takes it as
its first argument, and the theorems assume `IsSqrt sqrt`, which
`Real.sqrt` satisfies.  `fmin` is the field's `min`, `floor` is `Int.floor`.

Because of that idealisation the main theorems are limited to properties that
the rounded computation shares with the exact one: ranges and orderings, the
control flow of the nearest-hit search and of the bounce loop, the dither
table, and scenarios whose values are exactly representable.  Identities
between a computed `double` and an exact real quantity (a hit point lying
exactly on the sphere, a reflected direction of exactly the same length) are
true of the idealisation only and are not stated.

`size_t` values are natural numbers.  A C `int` is an integer in
`INT_MIN..INT_MAX`: the conversion of a `double` to `int`, which C leaves
undefined outside that range, is an argument `to_int` of the functions that
use it, and `int` addition wraps around.
-/

namespace Raytracer

/-! ## Embedding of the source -/

/-- The libm contract the program relies on: on non-negative arguments `sqrt`
returns the non-negative square root. -/
def IsSqrt {F : Type} [LinearOrderedField F] (sqrt : F → F) : Prop :=
  ∀ x : F, 0 ≤ x → 0 ≤ sqrt x ∧ sqrt x * sqrt x = x

/-- The constant `DBL_MAX` of `float.h` for IEEE-754 binary64,
`(2 - 2^(-52)) * 2^1023`. -/
def DBL_MAX {F : Type} [LinearOrderedField F] : F := 2 ^ 1024 - 2 ^ 971

/-- The constant `INT_MIN` of `limits.h` for a 32-bit `int`. -/
def INT_MIN : Int := -2147483648

/-- The constant `INT_MAX` of `limits.h` for a 32-bit `int`. -/
def INT_MAX : Int := 2147483647

/-- The conversion of an integral `double` value to `int` that x86-64 code
performs (instruction `cvttsd2si`): a value outside `INT_MIN..INT_MAX` gives
`INT_MIN`. -/
def cvttsd2si (v : Int) : Int :=
  if INT_MIN ≤ v ∧ v ≤ INT_MAX then v else INT_MIN

/-- Addition of two `int` values, wrapping around in two's complement. -/
def int_add (a b : Int) : Int :=
  (a + b - INT_MIN) % 2 ^ 32 + INT_MIN

/-- The macro `COLOUR_COUNT`. -/
def COLOUR_COUNT : Int := 4

/-- The table `data` of `dither`. -/
def dither_data : List Int :=
  [ 0, 24,  6, 30,
   36, 12, 42, 18,
    9, 33,  3, 27,
   45, 21, 39, 15]

/-- The index expression `(y % 4) + (4 * (x % 4))` of `dither`. -/
def dither_index (x y : Nat) : Nat := (y % 4) + (4 * (x % 4))

/-- The function `dither`: the table entry at `dither_index x y` (an index
outside the table, which `dither_index` never produces, reads as 0). -/
def dither (x y : Nat) : Int := dither_data.getD (dither_index x y) 0

/-- The struct `vector_t`. -/
structure vector_t (F : Type) where
  x : F
  y : F
  z : F
deriving DecidableEq

/-- The struct `ray_t`. -/
structure ray_t (F : Type) where
  origin : vector_t F
  direction : vector_t F
deriving DecidableEq

/-- The struct `sphere_t`. -/
structure sphere_t (F : Type) where
  position : vector_t F
  radius : F
deriving DecidableEq

section Field

variable {F : Type} [LinearOrderedField F]

/-- The function `vector_sub`. -/
def vector_sub (vec offset : vector_t F) : vector_t F :=
  { x := vec.x - offset.x
    y := vec.y - offset.y
    z := vec.z - offset.z }

/-- The function `vector_div`. -/
def vector_div (vec : vector_t F) (n : F) : vector_t F :=
  { x := vec.x / n
    y := vec.y / n
    z := vec.z / n }

/-- The function `vector_dot_product`. -/
def vector_dot_product (v1 v2 : vector_t F) : F :=
  v1.x * v2.x +
  v1.y * v2.y +
  v1.z * v2.z

/-- The function `vector_magnitude_squared`. -/
def vector_magnitude_squared (vec : vector_t F) : F :=
  vector_dot_product vec vec

/-- The function `vector_reflect`. -/
def vector_reflect (vec normal : vector_t F) : vector_t F :=
  let p := 2 * vector_dot_product vec normal
  { x := vec.x - p * normal.x
    y := vec.y - p * normal.y
    z := vec.z - p * normal.z }

/-- The function `sphere_intersect`: `none` is the return value `false`,
`some d` is `true` with `*distance_out = d`. -/
def sphere_intersect (sqrt : F → F) (sphere : sphere_t F) (ray : ray_t F) : Option F :=
  let v := vector_sub ray.origin sphere.position
  let a := vector_magnitude_squared ray.direction
  let b := 2 * vector_dot_product v ray.direction
  let c := vector_magnitude_squared v - sphere.radius * sphere.radius
  let discriminant := b * b - 4 * a * c
  if discriminant < 0 then
    none
  else
    let sqrt_discriminant := sqrt discriminant
    some (min ((-b - sqrt_discriminant) / (2 * a))
              ((-b + sqrt_discriminant) / (2 * a)))

/-- The function `sphere_reflect`, returning the updated ray. -/
def sphere_reflect (sphere : sphere_t F) (distance : F) (ray : ray_t F) : ray_t F :=
  let origin : vector_t F :=
    { x := ray.origin.x + distance * ray.direction.x
      y := ray.origin.y + distance * ray.direction.y
      z := ray.origin.z + distance * ray.direction.z }
  let normal := vector_sub origin sphere.position
  let normal := vector_div normal sphere.radius
  { origin := origin
    direction := vector_reflect ray.direction normal }

/-- The state of the nearest-hit search in `main`: `closest` (`none` is `NULL`,
`some (i, s)` is the pointer to `spheres[i]`, whose value is `s`) and
`best_distance`. -/
abbrev search_state (F : Type) := Option (Nat × sphere_t F) × F

/-- The body of the loop `for (i = 0; i < ARRAY_LEN(spheres); i++)` of `main`
for the sphere `s` stored at index `i`. -/
def search_step (sqrt : F → F) (ray : ray_t F) (st : search_state F)
    (i : Nat) (s : sphere_t F) : search_state F :=
  match sphere_intersect sqrt s ray with
  | none => st
  | some distance =>
    if distance ≤ 0 then
      st
    else if st.2 > distance then
      (some (i, s), distance)
    else
      st

/-- The loop `for (i = 0; i < ARRAY_LEN(spheres); i++)` of `main`, running over
the spheres from index `i` on. -/
def search_from (sqrt : F → F) (ray : ray_t F) :
    List (sphere_t F) → Nat → search_state F → search_state F
  | [], _, st => st
  | s :: rest, i, st => search_from sqrt ray rest (i + 1) (search_step sqrt ray st i s)

/-- One pass of the nearest-hit search of `main`: `closest = NULL`,
`best_distance = DBL_MAX`, then the loop over all spheres. -/
def nearest_hit (sqrt : F → F) (spheres : List (sphere_t F)) (ray : ray_t F) :
    search_state F :=
  search_from sqrt ray spheres 0 (none, DBL_MAX)

/-- Sphere number `j` of the list has an intersection distance `d` strictly
greater than 0: the hits the search does not skip with `continue`. -/
def forward_hit (sqrt : F → F) (spheres : List (sphere_t F)) (ray : ray_t F)
    (j : Nat) (d : F) : Prop :=
  ∃ t : sphere_t F, spheres[j]? = some t ∧ sphere_intersect sqrt t ray = some d ∧ 0 < d

/-- The invariant of the nearest-hit search after the spheres `done` have been
visited: `best_distance` never exceeds `DBL_MAX` nor a forward hit seen so far;
while `closest` is `NULL` it still is `DBL_MAX`; otherwise `closest` is the
first of the visited spheres whose forward hit is at `best_distance`, which is
below `DBL_MAX`. -/
def search_inv (sqrt : F → F) (ray : ray_t F) (done : List (sphere_t F))
    (st : search_state F) : Prop :=
  st.2 ≤ DBL_MAX ∧
  (∀ j d, forward_hit sqrt done ray j d → st.2 ≤ d) ∧
  (st.1 = none → st.2 = DBL_MAX) ∧
  (∀ k s, st.1 = some (k, s) →
    done[k]? = some s ∧ sphere_intersect sqrt s ray = some st.2 ∧
    0 < st.2 ∧ st.2 < DBL_MAX ∧
    ∀ j, forward_hit sqrt done ray j st.2 → k ≤ j)

/-- The loop `while (true)` of `main`, with a bound `fuel` on the number of
passes it may make: `none` when the bound is used up, otherwise the ray at
`break` together with the number of calls of `sphere_reflect` made. -/
def bounce_loop (sqrt : F → F) (spheres : List (sphere_t F)) :
    Nat → ray_t F → Option (ray_t F × Nat)
  | 0, _ => none
  | fuel + 1, ray =>
    match nearest_hit sqrt spheres ray with
    | (none, _) => some (ray, 0)
    | (some (_, closest), best_distance) =>
      match bounce_loop sqrt spheres fuel (sphere_reflect closest best_distance ray) with
      | none => none
      | some (final, bounces) => some (final, bounces + 1)

section Floor

variable [FloorRing F]

/-- The checker parity `(x + z) & 1` of the floor shading in `main`, where
`x` and `z` are the `int` values the two `floor` results are converted to. -/
def floor_parity (to_int : Int → Int) (ray : ray_t F) : Int :=
  let p := (ray.origin.y + 2) / ray.direction.y
  let x : Int := to_int ⌊ray.origin.x - (ray.direction.x * p)⌋
  let z : Int := to_int ⌊ray.origin.z - (ray.direction.z * p)⌋
  Int.land (int_add x z) 1

/-- The value `ray.direction.y` that `main` passes to `get_colour` for the ray
left by the bounce loop: the floor shading when the ray points downwards. -/
def shade (to_int : Int → Int) (ray : ray_t F) : F :=
  if ray.direction.y < 0 then
    0.2 - ray.direction.y * (0.3 + ((floor_parity to_int ray : Int) : F) / 2.0)
  else
    ray.direction.y

/-- Conversion of a `double` to an integer type in C: truncation towards
zero. -/
def trunc (v : F) : Int := if 0 ≤ v then ⌊v⌋ else ⌈v⌉

/-- The local `value` of `get_colour` before it is stored in a `uint8_t`. -/
def get_colour_value (sqrt : F → F) (x y : Nat) (raw_value : F) : Int :=
  trunc (((48 * sqrt raw_value) + ((Int.tdiv (dither x y) 3 : Int) : F)) / 16)

/-- The function `get_colour`: `none` when one of its three assertions fails
(or when `value` does not fit a `uint8_t`), otherwise the returned byte. -/
def get_colour (sqrt : F → F) (x y : Nat) (raw_value : F) : Option Int :=
  if ¬ (raw_value ≥ 0) then none
  else if ¬ (raw_value ≤ 1) then none
  else
    let value := get_colour_value sqrt x y raw_value
    if ¬ (0 ≤ value ∧ value < 256) then none
    else if ¬ (value < COLOUR_COUNT) then none
    else some (((COLOUR_COUNT - 1) - value) % 256)

end Floor

/-- The array `spheres` of `main`. -/
def spheres : List (sphere_t F) :=
  [ { position := { x := -1, y := 1, z := 0 }, radius := 1 },
    { position := { x := 1, y := -1, z := 0 }, radius := 1 },
    { position := { x := 4.5, y := 3, z := -4 }, radius := 5 },
    { position := { x := -0.5, y := -0.5, z := 1.75 }, radius := 0.6 },
    { position := { x := -10, y := 2, z := -8 }, radius := 2 } ]

/-- The palette of `gif_create`, one `(R, G, B)` triple per colour index. -/
def palette : List (Nat × Nat × Nat) :=
  [ (  0,   0,   0),
    (255,   0,   0),
    (255, 255,   0),
    (255, 255, 255) ]

/-- The brightness of the palette entry a colour index selects: the sum of its
`R`, `G` and `B` components (0 for an index outside the palette). -/
def palette_brightness (index : Int) : Nat :=
  match palette[index.toNat]? with
  | some (r, g, b) => r + g + b
  | none => 0

/-- The ray held by the loop `while (true)` of `main` after `n` calls of
`sphere_reflect`: `none` when the loop reaches `break` before the `n`-th
bounce. -/
def ray_after (sqrt : F → F) (spheres : List (sphere_t F)) :
    Nat → ray_t F → Option (ray_t F)
  | 0, ray => some ray
  | n + 1, ray =>
    match nearest_hit sqrt spheres ray with
    | (none, _) => none
    | (some (_, closest), best_distance) =>
      ray_after sqrt spheres n (sphere_reflect closest best_distance ray)

/-- A scene of two spheres of radius 1 facing each other, centred at
`(-2, 0, 0)` and `(2, 0, 0)`. -/
def facing_spheres : List (sphere_t F) :=
  [ { position := { x := -2, y := 0, z := 0 }, radius := 1 },
    { position := { x := 2, y := 0, z := 0 }, radius := 1 } ]

/-- The ray from `(0, 0, 0)` with direction `(1, 0, 0)`, along the line through
the centres of `facing_spheres`. -/
def facing_ray : ray_t F :=
  { origin := { x := 0, y := 0, z := 0 }
    direction := { x := 1, y := 0, z := 0 } }

/-- The ray at `(1, 0, 0)` with direction `(-1, 0, 0)`: `facing_ray` after its
bounce off the sphere centred at `(2, 0, 0)`. -/
def facing_ray_right : ray_t F :=
  { origin := { x := 1, y := 0, z := 0 }
    direction := { x := -1, y := 0, z := 0 } }

/-- The ray at `(-1, 0, 0)` with direction `(1, 0, 0)`: `facing_ray_right`
after its bounce off the sphere centred at `(-2, 0, 0)`. -/
def facing_ray_left : ray_t F :=
  { origin := { x := -1, y := 0, z := 0 }
    direction := { x := 1, y := 0, z := 0 } }

/-! ### The quadratic of the specification

The coefficients of `a t^2 + b t + c = 0` as the specification writes them,
in coordinates, to be compared with what `sphere_intersect` computes. -/

/-- Specification side: `a = |ray.direction|^2`. -/
def quadratic_a (ray : ray_t F) : F :=
  ray.direction.x ^ 2 + ray.direction.y ^ 2 + ray.direction.z ^ 2

/-- Specification side: `b = 2 * dot(ray.origin - sphere.position, ray.direction)`. -/
def quadratic_b (sphere : sphere_t F) (ray : ray_t F) : F :=
  2 * ((ray.origin.x - sphere.position.x) * ray.direction.x
     + (ray.origin.y - sphere.position.y) * ray.direction.y
     + (ray.origin.z - sphere.position.z) * ray.direction.z)

/-- Specification side: `c = |ray.origin - sphere.position|^2 - radius^2`. -/
def quadratic_c (sphere : sphere_t F) (ray : ray_t F) : F :=
  (ray.origin.x - sphere.position.x) ^ 2
    + (ray.origin.y - sphere.position.y) ^ 2
    + (ray.origin.z - sphere.position.z) ^ 2
    - sphere.radius ^ 2

/-- Specification side: the discriminant `b^2 - 4ac`. -/
def quadratic_disc (sphere : sphere_t F) (ray : ray_t F) : F :=
  quadratic_b sphere ray ^ 2 - 4 * quadratic_a ray * quadratic_c sphere ray

end Field

/-! ## Sphere intersection -/

section IntersectProofs

variable {F : Type} [LinearOrderedField F]

/-- The real square root satisfies the contract `IsSqrt`. -/
theorem isSqrt_real : IsSqrt Real.sqrt :=
  fun x hx => ⟨Real.sqrt_nonneg x, Real.mul_self_sqrt hx⟩

/-- Under `IsSqrt`, a non-negative number whose square is `x` is `sqrt x`. -/
theorem IsSqrt.eq_of_mul_self {sqrt : F → F} (hs : IsSqrt sqrt) {x r : F}
    (hr : 0 ≤ r) (hx : r * r = x) : sqrt x = r := by
  have h0 : 0 ≤ x := hx ▸ mul_self_nonneg r
  obtain ⟨h1, h2⟩ := hs x h0
  have h3 : sqrt x * sqrt x = r * r := by rw [h2, hx]
  exact (mul_self_inj h1 hr).1 h3

/-- Under `IsSqrt`, `sqrt` maps `[0, 1]` into `[0, 1]`. -/
theorem IsSqrt.le_one {sqrt : F → F} (hs : IsSqrt sqrt) {x : F}
    (h0 : 0 ≤ x) (h1 : x ≤ 1) : 0 ≤ sqrt x ∧ sqrt x ≤ 1 := by
  obtain ⟨hn, hsq⟩ := hs x h0
  refine ⟨hn, ?_⟩
  by_contra hc
  have hlt : 1 < sqrt x := not_le.1 hc
  nlinarith

/-- Under `IsSqrt`, `sqrt` is monotone on non-negative arguments. -/
theorem sqrt_le_sqrt_of_le {sqrt : F → F} (hs : IsSqrt sqrt) {u v : F}
    (h0 : 0 ≤ u) (huv : u ≤ v) : sqrt u ≤ sqrt v := by
  obtain ⟨hu0, husq⟩ := hs u h0
  obtain ⟨hv0, hvsq⟩ := hs v (le_trans h0 huv)
  by_contra hc
  have hlt : sqrt v < sqrt u := not_le.1 hc
  have hmul : sqrt v * sqrt v < sqrt u * sqrt u := mul_self_lt_mul_self hv0 hlt
  rw [husq, hvsq] at hmul
  exact absurd huv (not_le.2 hmul)

/-- A component of a unit vector lies in `[-1, 1]`. -/
theorem unit_y_bounds (v : vector_t F) (h : vector_magnitude_squared v = 1) :
    -1 ≤ v.y ∧ v.y ≤ 1 := by
  simp only [vector_magnitude_squared, vector_dot_product] at h
  constructor <;> nlinarith [mul_self_nonneg v.x, mul_self_nonneg v.z,
    mul_self_nonneg (v.y - 1), mul_self_nonneg (v.y + 1)]

/-- What `sphere_intersect` computes, in terms of the quadratic of the
specification. -/
theorem sphere_intersect_eq (sqrt : F → F) (S : sphere_t F) (R : ray_t F) :
    sphere_intersect sqrt S R =
      if quadratic_disc S R < 0 then none
      else some (min ((-quadratic_b S R - sqrt (quadratic_disc S R)) / (2 * quadratic_a R))
                     ((-quadratic_b S R + sqrt (quadratic_disc S R)) / (2 * quadratic_a R))) := by
  have ha : vector_magnitude_squared R.direction = quadratic_a R := by
    simp only [vector_magnitude_squared, vector_dot_product, quadratic_a]; ring
  have hb : 2 * vector_dot_product (vector_sub R.origin S.position) R.direction
      = quadratic_b S R := by
    simp only [vector_dot_product, vector_sub, quadratic_b]
  have hc : vector_magnitude_squared (vector_sub R.origin S.position)
      - S.radius * S.radius = quadratic_c S R := by
    simp only [vector_magnitude_squared, vector_dot_product, vector_sub, quadratic_c]; ring
  have hd : quadratic_b S R * quadratic_b S R - 4 * quadratic_a R * quadratic_c S R
      = quadratic_disc S R := by
    simp only [quadratic_disc]; ring
  simp only [sphere_intersect, ha, hb, hc, hd]

/-- The value of `sphere_intersect` once the discriminant and its root are
known. -/
theorem sphere_intersect_of_disc (sqrt : F → F) (hs : IsSqrt sqrt)
    (S : sphere_t F) (R : ray_t F) (r : F) (hr : 0 ≤ r)
    (hd : r * r = quadratic_disc S R) :
    sphere_intersect sqrt S R =
      some (min ((-quadratic_b S R - r) / (2 * quadratic_a R))
                ((-quadratic_b S R + r) / (2 * quadratic_a R))) := by
  have h0 : ¬ quadratic_disc S R < 0 := not_lt.2 (hd ▸ mul_self_nonneg r)
  rw [sphere_intersect_eq, if_neg h0, hs.eq_of_mul_self hr hd]

/-- C5: for the sphere of radius 1 centred at the origin and every ray whose
origin is at distance 5 from the centre (squared distance 25) and whose
direction is the unit vector from the ray origin to the centre,
`sphere_intersect` reports a hit at distance exactly 4. -/
theorem sphere_intersect_head_on (sqrt : F → F) (hs : IsSqrt sqrt) (R : ray_t F)
    (ho : vector_magnitude_squared
      (vector_sub R.origin ({ x := 0, y := 0, z := 0 } : vector_t F)) = 25)
    (hdir : R.direction =
      vector_div (vector_sub ({ x := 0, y := 0, z := 0 } : vector_t F) R.origin) 5) :
    sphere_intersect sqrt
      { position := { x := 0, y := 0, z := 0 }, radius := 1 } R = some 4 := by
  simp only [vector_magnitude_squared, vector_dot_product, vector_sub] at ho
  have hx : R.direction.x = (0 - R.origin.x) / 5 := by rw [hdir]; rfl
  have hy : R.direction.y = (0 - R.origin.y) / 5 := by rw [hdir]; rfl
  have hz : R.direction.z = (0 - R.origin.z) / 5 := by rw [hdir]; rfl
  have ha : quadratic_a R = 1 := by
    simp only [quadratic_a, hx, hy, hz]
    linear_combination (1 / 25 : F) * ho
  have hb : quadratic_b ({ position := { x := 0, y := 0, z := 0 }, radius := 1 } : sphere_t F) R
      = -10 := by
    simp only [quadratic_b, hx, hy, hz]
    linear_combination (-2 / 5 : F) * ho
  have hc : quadratic_c ({ position := { x := 0, y := 0, z := 0 }, radius := 1 } : sphere_t F) R
      = 24 := by
    simp only [quadratic_c]
    linear_combination ho
  rw [sphere_intersect_of_disc sqrt hs _ R 2 (by norm_num)
    (by rw [quadratic_disc, ha, hb, hc]; norm_num), ha, hb]
  norm_num

/-- Witness of C5: the ray from `(0, 0, 5)` with direction `(0, 0, -1)`. -/
theorem sphere_intersect_head_on_witness :
    IsSqrt Real.sqrt ∧
    sphere_intersect Real.sqrt
      { position := { x := 0, y := 0, z := 0 }, radius := 1 }
      { origin := { x := 0, y := 0, z := 5 }
        direction := { x := 0, y := 0, z := -1 } } = some (4 : ℝ) :=
  ⟨isSqrt_real,
    sphere_intersect_head_on Real.sqrt isSqrt_real
      { origin := { x := 0, y := 0, z := 5 }
        direction := { x := 0, y := 0, z := -1 } }
      (by norm_num [vector_magnitude_squared, vector_dot_product, vector_sub])
      (by norm_num [vector_div, vector_sub])⟩

end IntersectProofs

/-! ## Quantisation and shading -/

section ShaderProofs

variable {F : Type} [LinearOrderedField F] [FloorRing F]

/-- The index `dither` uses is inside the 16-entry table. -/
theorem dither_index_lt (x y : Nat) : dither_index x y < 16 := by
  unfold dither_index; omega

/-- The integer quotient `dither(x, y) / 3` lies in `0..15`. -/
theorem dither_div_bounds (x y : Nat) :
    0 ≤ Int.tdiv (dither x y) 3 ∧ Int.tdiv (dither x y) 3 ≤ 15 := by
  have key : ∀ i : Nat, i < 16 →
      0 ≤ Int.tdiv (dither_data.getD i 0) 3 ∧ Int.tdiv (dither_data.getD i 0) 3 ≤ 15 := by
    decide
  exact key _ (dither_index_lt x y)

/-- For `raw_value` in `[0, 1]` the local `value` of `get_colour` is in `0..3`. -/
theorem get_colour_value_bounds (sqrt : F → F) (hs : IsSqrt sqrt) (x y : Nat)
    (raw_value : F) (h0 : 0 ≤ raw_value) (h1 : raw_value ≤ 1) :
    0 ≤ get_colour_value sqrt x y raw_value ∧
    get_colour_value sqrt x y raw_value < 4 := by
  obtain ⟨hs0, hs1⟩ := hs.le_one h0 h1
  obtain ⟨hd0, hd1⟩ := dither_div_bounds x y
  have hq0 : (0 : F) ≤ ((Int.tdiv (dither x y) 3 : Int) : F) := by exact_mod_cast hd0
  have hq1 : ((Int.tdiv (dither x y) 3 : Int) : F) ≤ 15 := by exact_mod_cast hd1
  have hv0 : 0 ≤ ((48 * sqrt raw_value) + ((Int.tdiv (dither x y) 3 : Int) : F)) / 16 := by
    apply div_nonneg _ (by norm_num)
    linarith
  have hv1 : ((48 * sqrt raw_value) + ((Int.tdiv (dither x y) 3 : Int) : F)) / 16
      < ((4 : Int) : F) := by
    rw [div_lt_iff₀ (by norm_num)]
    push_cast
    linarith
  unfold get_colour_value trunc
  rw [if_pos hv0]
  exact ⟨Int.floor_nonneg.2 hv0, Int.floor_lt.2 hv1⟩

/-- For `raw_value` in `[0, 1]` no assertion of `get_colour` fails and the
function returns `3 - value`. -/
theorem get_colour_eq (sqrt : F → F) (hs : IsSqrt sqrt) (x y : Nat)
    (raw_value : F) (h0 : 0 ≤ raw_value) (h1 : raw_value ≤ 1) :
    get_colour sqrt x y raw_value = some (3 - get_colour_value sqrt x y raw_value) := by
  obtain ⟨hv0, hv1⟩ := get_colour_value_bounds sqrt hs x y raw_value h0 h1
  have hb : 0 ≤ get_colour_value sqrt x y raw_value ∧
      get_colour_value sqrt x y raw_value < 256 := ⟨hv0, by omega⟩
  have hc : get_colour_value sqrt x y raw_value < COLOUR_COUNT := hv1
  unfold get_colour
  simp only [ge_iff_le, h0, h1, hb, hc, not_true_eq_false, if_false, and_self]
  congr 1
  unfold COLOUR_COUNT
  omega

/-- C6: for every pixel `(x, y)` and every `raw_value` in `[0, 1]`, the bucket
`trunc((48*sqrt(raw_value) + dither(x,y)/3) / 16)` computed by `get_colour` is
below `COLOUR_COUNT = 4`, no assertion fails, and the returned palette index
lies in `[0, 4)`. -/
theorem get_colour_in_range (sqrt : F → F) (hs : IsSqrt sqrt) (x y : Nat)
    (raw_value : F) (h0 : 0 ≤ raw_value) (h1 : raw_value ≤ 1) :
    trunc (((48 * sqrt raw_value) + ((Int.tdiv (dither x y) 3 : Int) : F)) / 16) < 4 ∧
    get_colour_value sqrt x y raw_value < COLOUR_COUNT ∧
    ∃ c : Int, get_colour sqrt x y raw_value = some c ∧ 0 ≤ c ∧ c < 4 := by
  obtain ⟨hv0, hv1⟩ := get_colour_value_bounds sqrt hs x y raw_value h0 h1
  refine ⟨hv1, hv1, 3 - get_colour_value sqrt x y raw_value,
    get_colour_eq sqrt hs x y raw_value h0 h1, ?_, ?_⟩ <;> omega

/-- Witness of C6: pixel `(1, 2)` and `raw_value = 1` over the reals. -/
theorem get_colour_in_range_witness :
    IsSqrt Real.sqrt ∧ (0 : ℝ) ≤ 1 ∧ (1 : ℝ) ≤ 1 ∧
    get_colour_value Real.sqrt 1 2 (1 : ℝ) < COLOUR_COUNT ∧
    ∃ c : Int, get_colour Real.sqrt 1 2 (1 : ℝ) = some c ∧ 0 ≤ c ∧ c < 4 :=
  ⟨isSqrt_real, zero_le_one, le_refl 1,
    (get_colour_in_range Real.sqrt isSqrt_real 1 2 1 zero_le_one (le_refl 1)).2⟩

/-- The bitwise `n & 1` of a natural-number complement, used for negative `int`. -/
theorem nat_ldiff_one (m : Nat) : Nat.ldiff 1 m = (m + 1) % 2 := by
  apply Nat.eq_of_testBit_eq
  intro k
  rw [Nat.testBit_ldiff]
  cases k with
  | zero =>
    simp only [Nat.testBit_zero]
    rcases Nat.mod_two_eq_zero_or_one m with h | h <;>
      simp [h, Nat.add_mod]
  | succ k =>
    have h1 : Nat.testBit 1 (k + 1) = false := by
      simp [Nat.testBit_succ]
    have h2 : Nat.testBit ((m + 1) % 2) (k + 1) = false := by
      rcases Nat.mod_two_eq_zero_or_one (m + 1) with h | h <;>
        simp [h, Nat.testBit_succ]
    rw [h1, h2]; rfl

/-- The two's-complement `n & 1` is the parity of `n`, also for negative `n`. -/
theorem int_land_one (n : Int) : Int.land n 1 = n % 2 := by
  cases n with
  | ofNat m =>
    show ((m &&& 1 : Nat) : Int) = _
    rw [Nat.and_one_is_mod]; rfl
  | negSucc m =>
    show ((Nat.ldiff 1 m : Nat) : Int) = _
    rw [nat_ldiff_one, Int.negSucc_eq]
    omega

/-- The low bit of a wrapped `int` sum is the parity of the exact sum. -/
theorem int_add_land_one (a b : Int) : Int.land (int_add a b) 1 = (a + b) % 2 := by
  rw [int_land_one]
  unfold int_add INT_MIN
  omega

/-- The checker parity is 0 or 1, whatever the conversion to `int` yields. -/
theorem floor_parity_cases (to_int : Int → Int) (ray : ray_t F) :
    floor_parity to_int ray = 0 ∨ floor_parity to_int ray = 1 := by
  unfold floor_parity
  simp only [int_add_land_one]
  exact Int.emod_two_eq _

/-- The brightness of a ray of unit direction lies in `[0, 1]`. -/
theorem shade_bounds (to_int : Int → Int) (ray : ray_t F)
    (h : vector_magnitude_squared ray.direction = 1) :
    0 ≤ shade to_int ray ∧ shade to_int ray ≤ 1 := by
  obtain ⟨hlo, hhi⟩ := unit_y_bounds ray.direction h
  unfold shade
  split
  · rename_i hy
    rcases floor_parity_cases to_int ray with hp | hp <;> rw [hp] <;> norm_num <;>
      constructor <;> nlinarith
  · rename_i hy
    exact ⟨not_lt.1 hy, hhi⟩

/-- C7: for every ray whose direction has unit length, the brightness handed
to `get_colour` lies in `[0, 1]`; it is `direction.y` when `direction.y >= 0`
and `0.2 - direction.y * (0.3 + parity/2)` with `parity` 0 or 1 when
`direction.y < 0`; so `get_colour` passes its assertions for it.  This holds
whatever the conversion of the `floor` values to `int` yields. -/
theorem shade_in_unit_interval (to_int : Int → Int) (ray : ray_t F)
    (h : vector_magnitude_squared ray.direction = 1) :
    (0 ≤ shade to_int ray ∧ shade to_int ray ≤ 1) ∧
    (0 ≤ ray.direction.y → shade to_int ray = ray.direction.y) ∧
    (ray.direction.y < 0 → ∃ parity : Int, (parity = 0 ∨ parity = 1) ∧
      shade to_int ray = 0.2 - ray.direction.y * (0.3 + (parity : F) / 2)) ∧
    (∀ sqrt : F → F, IsSqrt sqrt → ∀ x y : Nat,
      ∃ c : Int, get_colour sqrt x y (shade to_int ray) = some c) := by
  have hb := shade_bounds to_int ray h
  refine ⟨hb, ?_, ?_, ?_⟩
  · intro hy
    unfold shade
    rw [if_neg (not_lt.2 hy)]
  · intro hy
    refine ⟨floor_parity to_int ray, floor_parity_cases to_int ray, ?_⟩
    unfold shade
    rw [if_pos hy]
    norm_num
  · intro sqrt hs x y
    exact ⟨_, get_colour_eq sqrt hs x y (shade to_int ray) hb.1 hb.2⟩

/-- Witness of C7: the ray from the camera origin straight down,
direction `(0, -1, 0)`, over the rationals. -/
theorem shade_in_unit_interval_witness :
    vector_magnitude_squared
      ({ origin := { x := 0, y := -0.1, z := 3 }
         direction := { x := 0, y := -1, z := 0 } } : ray_t ℚ).direction = 1 ∧
    0 ≤ shade cvttsd2si ({ origin := { x := 0, y := -0.1, z := 3 }
                           direction := { x := 0, y := -1, z := 0 } } : ray_t ℚ) ∧
    shade cvttsd2si ({ origin := { x := 0, y := -0.1, z := 3 }
                       direction := { x := 0, y := -1, z := 0 } } : ray_t ℚ) ≤ 1 :=
  have h : vector_magnitude_squared
      ({ origin := { x := 0, y := -0.1, z := 3 }
         direction := { x := 0, y := -1, z := 0 } } : ray_t ℚ).direction = 1 := by
    simp [vector_magnitude_squared, vector_dot_product]
  ⟨h, (shade_in_unit_interval cvttsd2si _ h).1⟩

end ShaderProofs

/-! ## The nearest-hit search and the bounce loop -/

section SearchProofs

variable {F : Type} [LinearOrderedField F]

/-- A forward hit among `done ++ [s]` is one among `done` or the hit of `s`
itself, at index `done.length`. -/
theorem forward_hit_concat (sqrt : F → F) (ray : ray_t F) (done : List (sphere_t F))
    (s : sphere_t F) (j : Nat) (d : F)
    (h : forward_hit sqrt (done ++ [s]) ray j d) :
    (j < done.length ∧ forward_hit sqrt done ray j d) ∨
    (j = done.length ∧ sphere_intersect sqrt s ray = some d ∧ 0 < d) := by
  obtain ⟨t, ht, hi, hd⟩ := h
  rcases Nat.lt_or_ge j done.length with hj | hj
  · left
    rw [List.getElem?_append_left hj] at ht
    exact ⟨hj, t, ht, hi, hd⟩
  · right
    rw [List.getElem?_append_right hj] at ht
    have hlt : j - done.length < [s].length := by
      by_contra hc
      rw [List.getElem?_eq_none (not_lt.1 hc)] at ht
      exact absurd ht (by simp)
    have hj0 : j - done.length = 0 := by simpa using hlt
    rw [hj0] at ht
    have hts : s = t := by simpa using ht
    exact ⟨by omega, hts ▸ hi, hd⟩

/-- The loop body keeps the invariant when it skips the sphere. -/
theorem search_inv_skip (sqrt : F → F) (ray : ray_t F) (done : List (sphere_t F))
    (st : search_state F) (s : sphere_t F) (inv : search_inv sqrt ray done st)
    (hskip : ∀ d, sphere_intersect sqrt s ray = some d → 0 < d → st.2 ≤ d) :
    search_inv sqrt ray (done ++ [s]) st := by
  obtain ⟨hmax, hmin, hnone, hsome⟩ := inv
  refine ⟨hmax, ?_, hnone, ?_⟩
  · intro j d hj
    rcases forward_hit_concat sqrt ray done s j d hj with ⟨-, h⟩ | ⟨-, hi, hd⟩
    · exact hmin j d h
    · exact hskip d hi hd
  · intro k t hk
    obtain ⟨hget, hi, hpos, hlt, hfirst⟩ := hsome k t hk
    have hklt : k < done.length := (List.getElem?_eq_some.1 hget).1
    refine ⟨by rw [List.getElem?_append_left hklt]; exact hget, hi, hpos, hlt, ?_⟩
    intro j hj
    rcases forward_hit_concat sqrt ray done s j st.2 hj with ⟨-, h⟩ | ⟨hjl, -, -⟩
    · exact hfirst j h
    · omega

/-- The loop body keeps the invariant. -/
theorem search_inv_step (sqrt : F → F) (ray : ray_t F) (done : List (sphere_t F))
    (st : search_state F) (s : sphere_t F) (inv : search_inv sqrt ray done st) :
    search_inv sqrt ray (done ++ [s]) (search_step sqrt ray st done.length s) := by
  unfold search_step
  cases hi : sphere_intersect sqrt s ray with
  | none =>
    exact search_inv_skip sqrt ray done st s inv (fun d h => by simp [hi] at h)
  | some distance =>
    simp only
    by_cases h0 : distance ≤ 0
    · rw [if_pos h0]
      refine search_inv_skip sqrt ray done st s inv (fun d h hd => ?_)
      rw [hi] at h
      have hdd : distance = d := Option.some.inj h
      rw [hdd] at h0
      exact absurd hd (not_lt.2 h0)
    · rw [if_neg h0]
      by_cases hb : st.2 > distance
      · rw [if_pos hb]
        obtain ⟨hmax, hmin, -, -⟩ := inv
        refine ⟨le_trans (le_of_lt hb) hmax, ?_, by simp, ?_⟩
        · intro j d hj
          rcases forward_hit_concat sqrt ray done s j d hj with ⟨-, h⟩ | ⟨-, hi2, -⟩
          · exact le_trans (le_of_lt hb) (hmin j d h)
          · rw [hi] at hi2
            exact le_of_eq (Option.some.inj hi2)
        · intro k t hk
          simp only [Option.some.injEq, Prod.mk.injEq] at hk
          obtain ⟨hk1, hk2⟩ := hk
          subst hk1 hk2
          refine ⟨List.getElem?_concat_length done s, hi, not_le.1 h0,
            lt_of_lt_of_le hb hmax, ?_⟩
          intro j hj
          rcases forward_hit_concat sqrt ray done s j distance hj with ⟨-, h⟩ | ⟨hjl, -, -⟩
          · exact absurd (hmin j distance h) (not_le.2 hb)
          · exact le_of_eq hjl.symm
      · rw [if_neg hb]
        refine search_inv_skip sqrt ray done st s inv (fun d h _ => ?_)
        rw [hi] at h
        rw [← Option.some.inj h]
        exact not_lt.1 hb

/-- The loop keeps the invariant over the remaining spheres. -/
theorem search_inv_from (sqrt : F → F) (ray : ray_t F) (rest : List (sphere_t F)) :
    ∀ (done : List (sphere_t F)) (st : search_state F),
      search_inv sqrt ray done st →
      search_inv sqrt ray (done ++ rest) (search_from sqrt ray rest done.length st) := by
  induction rest with
  | nil =>
    intro done st inv
    simpa [search_from] using inv
  | cons s rest ih =>
    intro done st inv
    have h := ih (done ++ [s]) _ (search_inv_step sqrt ray done st s inv)
    simpa [search_from] using h

/-- The invariant holds for the result of one pass of the search. -/
theorem nearest_hit_inv (sqrt : F → F) (spheres : List (sphere_t F)) (ray : ray_t F) :
    search_inv sqrt ray spheres (nearest_hit sqrt spheres ray) := by
  have h0 : search_inv sqrt ray [] ((none, DBL_MAX) : search_state F) := by
    refine ⟨le_refl _, ?_, fun _ => rfl, ?_⟩
    · rintro j d ⟨t, ht, -, -⟩
      simp at ht
    · intro k s hk
      simp at hk
  simpa [nearest_hit] using search_inv_from sqrt ray spheres [] _ h0

/-- The search selects no sphere when every forward hit is at `DBL_MAX` or
beyond, in particular when there is no forward hit. -/
theorem nearest_hit_none (sqrt : F → F) (spheres : List (sphere_t F)) (ray : ray_t F)
    (h : ∀ j d, forward_hit sqrt spheres ray j d → ¬ d < DBL_MAX) :
    (nearest_hit sqrt spheres ray).1 = none := by
  obtain ⟨-, -, -, hsome⟩ := nearest_hit_inv sqrt spheres ray
  cases hc : (nearest_hit sqrt spheres ray).1 with
  | none => rfl
  | some ks =>
    obtain ⟨k, s⟩ := ks
    obtain ⟨hget, hi, hpos, hlt, -⟩ := hsome k s hc
    exact absurd hlt (h k _ ⟨s, hget, hi, hpos⟩)

/-- C9 (amended): one pass of the nearest-hit search selects no sphere exactly
when no sphere of the list has an intersection distance strictly greater than
0 and strictly below `DBL_MAX`; otherwise the selected sphere `spheres[k]` has
a forward hit at `best_distance`, which is the minimum over all strictly
positive intersection distances in the list, and `k` is the first index of the
list attaining that minimum. -/
theorem nearest_hit_selects (sqrt : F → F) (spheres : List (sphere_t F)) (ray : ray_t F) :
    ((nearest_hit sqrt spheres ray).1 = none ↔
      ∀ j d, forward_hit sqrt spheres ray j d → ¬ d < DBL_MAX) ∧
    (∀ k s, (nearest_hit sqrt spheres ray).1 = some (k, s) →
      spheres[k]? = some s ∧
      forward_hit sqrt spheres ray k (nearest_hit sqrt spheres ray).2 ∧
      (∀ j d, forward_hit sqrt spheres ray j d → (nearest_hit sqrt spheres ray).2 ≤ d) ∧
      (∀ j, forward_hit sqrt spheres ray j (nearest_hit sqrt spheres ray).2 → k ≤ j)) := by
  obtain ⟨-, hmin, hnone, hsome⟩ := nearest_hit_inv sqrt spheres ray
  refine ⟨⟨fun hn j d hj => ?_, nearest_hit_none sqrt spheres ray⟩, fun k s hk => ?_⟩
  · have h := hmin j d hj
    rw [hnone hn] at h
    exact not_lt.2 h
  · obtain ⟨hget, hi, hpos, -, hfirst⟩ := hsome k s hk
    exact ⟨hget, ⟨s, hget, hi, hpos⟩, hmin, hfirst⟩

/-- The unit sphere at the origin and the ray from `(0, 0, 5)` with the tiny
direction `(0, 0, -2^(-1030))`: `sphere_intersect` reports the distance
`2^1032`. -/
theorem sphere_intersect_far :
    sphere_intersect Real.sqrt
      { position := { x := 0, y := 0, z := 0 }, radius := 1 }
      { origin := { x := 0, y := 0, z := 5 }
        direction := { x := 0, y := 0, z := -(1 / 2 ^ 1030) } }
      = some ((2 : ℝ) ^ 1032) := by
  rw [sphere_intersect_of_disc Real.sqrt isSqrt_real _ _ (1 / 2 ^ 1029) (by positivity)
    (by norm_num [quadratic_disc, quadratic_a, quadratic_b, quadratic_c])]
  norm_num [quadratic_a, quadratic_b]

/-- Counterexample to C9 as stated: for the unit sphere at the origin and the
ray from `(0, 0, 5)` with direction `(0, 0, -2^(-1030))` the sphere has the
strictly positive intersection distance `2^1032`, yet the search selects no
sphere, because `best_distance` starts at `DBL_MAX`. -/
theorem nearest_hit_skips_far_hit :
    (nearest_hit Real.sqrt
      [{ position := { x := 0, y := 0, z := 0 }, radius := 1 }]
      { origin := { x := 0, y := 0, z := 5 }
        direction := { x := 0, y := 0, z := -(1 / 2 ^ 1030) } }).1 = none ∧
    sphere_intersect Real.sqrt
      { position := { x := 0, y := 0, z := 0 }, radius := 1 }
      { origin := { x := 0, y := 0, z := 5 }
        direction := { x := 0, y := 0, z := -(1 / 2 ^ 1030) } }
      = some ((2 : ℝ) ^ 1032) ∧
    (0 : ℝ) < 2 ^ 1032 ∧
    ¬ ((nearest_hit Real.sqrt
        [{ position := { x := 0, y := 0, z := 0 }, radius := 1 }]
        { origin := { x := 0, y := 0, z := 5 }
          direction := { x := 0, y := 0, z := -(1 / 2 ^ 1030) } }).1 = none ↔
      ∀ j d, ¬ forward_hit Real.sqrt
        [{ position := { x := 0, y := 0, z := 0 }, radius := 1 }]
        { origin := { x := 0, y := 0, z := 5 }
          direction := { x := 0, y := 0, z := -(1 / 2 ^ 1030) } } j d) := by
  have hn : (nearest_hit Real.sqrt
      [{ position := { x := 0, y := 0, z := 0 }, radius := 1 }]
      { origin := { x := 0, y := 0, z := 5 }
        direction := { x := 0, y := 0, z := -(1 / 2 ^ 1030) } }).1 = none := by
    simp only [nearest_hit, search_from, search_step, sphere_intersect_far]
    norm_num [DBL_MAX]
  refine ⟨hn, sphere_intersect_far, by positivity, fun hiff => ?_⟩
  exact hiff.1 hn 0 (2 ^ 1032)
    ⟨_, List.getElem?_cons_zero, sphere_intersect_far, by positivity⟩

/-- The unit sphere at the origin and the ray from `(0, 0, 5)` pointing away
from it: `sphere_intersect` reports the negative distance `-6`. -/
theorem sphere_intersect_behind :
    sphere_intersect Real.sqrt
      { position := { x := 0, y := 0, z := 0 }, radius := 1 }
      { origin := { x := 0, y := 0, z := 5 }
        direction := { x := 0, y := 0, z := 1 } } = some (-6 : ℝ) := by
  rw [sphere_intersect_of_disc Real.sqrt isSqrt_real _ _ 2 (by norm_num)
    (by norm_num [quadratic_disc, quadratic_a, quadratic_b, quadratic_c])]
  norm_num [quadratic_a, quadratic_b]

/-- C10: if the sphere list is empty, or more generally if no sphere of the
list yields a hit with strictly positive distance, the bounce loop ends in its
first pass, after zero bounces, with the ray's origin and direction unchanged. -/
theorem bounce_loop_no_forward_hit (sqrt : F → F) (spheres : List (sphere_t F))
    (ray : ray_t F) (fuel : Nat) :
    bounce_loop sqrt [] (fuel + 1) ray = some (ray, 0) ∧
    ((∀ s ∈ spheres, ∀ d, sphere_intersect sqrt s ray = some d → d ≤ 0) →
      bounce_loop sqrt spheres (fuel + 1) ray = some (ray, 0)) := by
  have key : ∀ l : List (sphere_t F),
      (∀ s ∈ l, ∀ d, sphere_intersect sqrt s ray = some d → d ≤ 0) →
      bounce_loop sqrt l (fuel + 1) ray = some (ray, 0) := by
    intro l h
    have hn : (nearest_hit sqrt l ray).1 = none := by
      apply nearest_hit_none
      rintro j d ⟨t, ht, hi, hd⟩
      exact absurd hd (not_lt.2 (h t (List.getElem?_mem ht) d hi))
    unfold bounce_loop
    split
    · rfl
    · rename_i k closest best heq
      rw [heq] at hn
      exact absurd hn (by simp)
  exact ⟨key [] (by simp), key spheres⟩

/-- Witness of C10: the unit sphere at the origin lies behind the ray from
`(0, 0, 5)` with direction `(0, 0, 1)`; the loop returns the ray unchanged
after zero bounces. -/
theorem bounce_loop_no_forward_hit_witness :
    (∀ s ∈ [({ position := { x := 0, y := 0, z := 0 }, radius := 1 } : sphere_t ℝ)],
      ∀ d, sphere_intersect Real.sqrt s
        { origin := { x := 0, y := 0, z := 5 }
          direction := { x := 0, y := 0, z := 1 } } = some d → d ≤ 0) ∧
    bounce_loop Real.sqrt
      [({ position := { x := 0, y := 0, z := 0 }, radius := 1 } : sphere_t ℝ)] 1
      { origin := { x := 0, y := 0, z := 5 }
        direction := { x := 0, y := 0, z := 1 } }
      = some ({ origin := { x := 0, y := 0, z := 5 }
                direction := { x := 0, y := 0, z := 1 } }, 0) :=
  have h : ∀ s ∈ [({ position := { x := 0, y := 0, z := 0 }, radius := 1 } : sphere_t ℝ)],
      ∀ d, sphere_intersect Real.sqrt s
        { origin := { x := 0, y := 0, z := 5 }
          direction := { x := 0, y := 0, z := 1 } } = some d → d ≤ 0 := by
    intro s hs d hd
    rw [List.mem_singleton.1 hs, sphere_intersect_behind] at hd
    rw [← Option.some.inj hd]
    norm_num
  ⟨h, (bounce_loop_no_forward_hit Real.sqrt _ _ 0).2 h⟩

end SearchProofs

/-! ## The dither table -/

section DitherProofs

/-- C14: `dither` is a total function of `(x mod 4, y mod 4)` only: the table
index `(y mod 4) + 4 * (x mod 4)` is always inside the 16-entry table, and two
positions that agree modulo 4 in both coordinates get the same threshold. -/
theorem dither_mod_four :
    dither_data.length = 16 ∧
    (∀ x y : Nat, dither_index x y < dither_data.length ∧
      dither_data[dither_index x y]? = some (dither x y)) ∧
    (∀ x y x2 y2 : Nat, x % 4 = x2 % 4 → y % 4 = y2 % 4 →
      dither x y = dither x2 y2) := by
  refine ⟨rfl, fun x y => ?_, fun x y x2 y2 hx hy => ?_⟩
  · have hlt : dither_index x y < dither_data.length := dither_index_lt x y
    refine ⟨hlt, ?_⟩
    unfold dither
    rw [List.getD_eq_getElem?_getD, List.getElem?_eq_getElem hlt]
    rfl
  · unfold dither dither_index
    rw [hx, hy]

/-- Witness of C14: the positions `(1, 2)` and `(5, 10)`. -/
theorem dither_mod_four_witness :
    1 % 4 = 5 % 4 ∧ 2 % 4 = 10 % 4 ∧ dither 1 2 = dither 5 10 :=
  ⟨rfl, rfl, dither_mod_four.2.2 1 2 5 10 rfl rfl⟩

/-- C20: the 16 entries of the dither table are exactly the multiples of 3 from
0 to 45, each occurring once; so over the tile `x, y` in `0..3` the integer
quotient `dither(x, y) / 3` is exact and takes every value in `0..15` exactly
once. -/
theorem dither_table_multiples_of_three :
    dither_data.length = 16 ∧
    dither_data.Nodup ∧
    (∀ e : Int, e ∈ dither_data ↔ ∃ k : Nat, k < 16 ∧ e = 3 * (k : Int)) ∧
    (∀ x < 4, ∀ y < 4, 3 * Int.tdiv (dither x y) 3 = dither x y) ∧
    (∀ v : Nat, v < 16 → ∃ x < 4, ∃ y < 4, Int.tdiv (dither x y) 3 = (v : Int) ∧
      ∀ x2 < 4, ∀ y2 < 4, Int.tdiv (dither x2 y2) 3 = (v : Int) → x2 = x ∧ y2 = y) := by
  refine ⟨rfl, by decide, ?_, by decide, by decide⟩
  intro e
  constructor
  · intro he
    have hall : ∀ a ∈ dither_data, ∃ k : Nat, k < 16 ∧ a = 3 * (k : Int) := by
      decide
    exact hall e he
  · rintro ⟨k, hk, rfl⟩
    have hall : ∀ k : Nat, k < 16 → 3 * (k : Int) ∈ dither_data := by decide
    exact hall k hk

end DitherProofs

/-! ## The pixel pipeline on an empty scene -/

section PipelineProofs

variable {F : Type} [LinearOrderedField F] [FloorRing F]

end PipelineProofs

/-! ## Monotonicity of the quantisation -/

section QuantiseProofs

variable {F : Type} [LinearOrderedField F] [FloorRing F]

/-- The local `value` of `get_colour` is monotone in `raw_value` on `[0, 1]`. -/
theorem get_colour_value_mono (sqrt : F → F) (hs : IsSqrt sqrt) (x y : Nat)
    (v1 v2 : F) (h0 : 0 ≤ v1) (h12 : v1 ≤ v2) :
    get_colour_value sqrt x y v1 ≤ get_colour_value sqrt x y v2 := by
  have hsq := sqrt_le_sqrt_of_le hs h0 h12
  have hs1 := (hs v1 h0).1
  have hs2 := (hs v2 (le_trans h0 h12)).1
  obtain ⟨hd0, -⟩ := dither_div_bounds x y
  have hq0 : (0 : F) ≤ ((Int.tdiv (dither x y) 3 : Int) : F) := by exact_mod_cast hd0
  have hle : ((48 * sqrt v1) + ((Int.tdiv (dither x y) 3 : Int) : F)) / 16
      ≤ ((48 * sqrt v2) + ((Int.tdiv (dither x y) 3 : Int) : F)) / 16 := by
    apply div_le_div_of_nonneg_right _ (by norm_num)
    linarith
  have hn1 : 0 ≤ ((48 * sqrt v1) + ((Int.tdiv (dither x y) 3 : Int) : F)) / 16 :=
    div_nonneg (by linarith) (by norm_num)
  have hn2 : 0 ≤ ((48 * sqrt v2) + ((Int.tdiv (dither x y) 3 : Int) : F)) / 16 :=
    le_trans hn1 hle
  unfold get_colour_value trunc
  rw [if_pos hn1, if_pos hn2]
  exact Int.floor_le_floor hle

/-- On the colour indices `0..3` the palette of `gif_create` gets brighter with
the index. -/
theorem palette_brightness_mono (c1 c2 : Int) (h0 : 0 ≤ c2) (h12 : c2 ≤ c1)
    (h3 : c1 ≤ 3) : palette_brightness c2 ≤ palette_brightness c1 := by
  have hc1 : 0 ≤ c1 := le_trans h0 h12
  have hc2 : c2 ≤ 3 := le_trans h12 h3
  interval_cases c1 <;> interval_cases c2 <;> decide

/-- C12: quantisation is monotonic in the palette index: for a fixed pixel
`(x, y)` and `v1 <= v2` in `[0, 1]`, `get_colour` returns for `v2` an index not
above the one it returns for `v1`. -/
theorem get_colour_antitone (sqrt : F → F) (hs : IsSqrt sqrt) (x y : Nat) (v1 v2 : F)
    (h0 : 0 ≤ v1) (h12 : v1 ≤ v2) (h1 : v2 ≤ 1) :
    ∃ c1 c2 : Int, get_colour sqrt x y v1 = some c1 ∧
      get_colour sqrt x y v2 = some c2 ∧ c2 ≤ c1 := by
  refine ⟨_, _, get_colour_eq sqrt hs x y v1 h0 (le_trans h12 h1),
    get_colour_eq sqrt hs x y v2 (le_trans h0 h12) h1, ?_⟩
  have hm := get_colour_value_mono sqrt hs x y v1 v2 h0 h12
  omega

/-- Witness of C12: pixel `(0, 0)` with `v1 = 0` and `v2 = 1` over the reals. -/
theorem get_colour_antitone_witness :
    IsSqrt Real.sqrt ∧ (0 : ℝ) ≤ 0 ∧ (0 : ℝ) ≤ 1 ∧ (1 : ℝ) ≤ 1 ∧
    ∃ c1 c2 : Int, get_colour Real.sqrt 0 0 (0 : ℝ) = some c1 ∧
      get_colour Real.sqrt 0 0 (1 : ℝ) = some c2 ∧ c2 ≤ c1 :=
  ⟨isSqrt_real, le_refl 0, zero_le_one, le_refl 1,
    get_colour_antitone Real.sqrt isSqrt_real 0 0 0 1 (le_refl 0) zero_le_one (le_refl 1)⟩

/-- C13 (amended): for a fixed pixel `(x, y)` and `v1 <= v2` in `[0, 1]`, the
palette entry `get_colour` selects for `v2` is at most as bright (sum of its
`R`, `G`, `B` components) as the entry it selects for `v1`: a larger input
maps to a darker or equal palette entry. -/
theorem get_colour_brightness_antitone (sqrt : F → F) (hs : IsSqrt sqrt) (x y : Nat)
    (v1 v2 : F) (h0 : 0 ≤ v1) (h12 : v1 ≤ v2) (h1 : v2 ≤ 1) :
    ∃ c1 c2 : Int, get_colour sqrt x y v1 = some c1 ∧
      get_colour sqrt x y v2 = some c2 ∧
      palette_brightness c2 ≤ palette_brightness c1 := by
  refine ⟨_, _, get_colour_eq sqrt hs x y v1 h0 (le_trans h12 h1),
    get_colour_eq sqrt hs x y v2 (le_trans h0 h12) h1, ?_⟩
  have hm := get_colour_value_mono sqrt hs x y v1 v2 h0 h12
  obtain ⟨ha, -⟩ := get_colour_value_bounds sqrt hs x y v1 h0 (le_trans h12 h1)
  obtain ⟨-, hb⟩ := get_colour_value_bounds sqrt hs x y v2 (le_trans h0 h12) h1
  exact palette_brightness_mono _ _ (by omega) (by omega) (by omega)

/-- Witness of C13 (amended): pixel `(0, 0)` with `v1 = 0` and `v2 = 1` over
the reals. -/
theorem get_colour_brightness_antitone_witness :
    IsSqrt Real.sqrt ∧ (0 : ℝ) ≤ 0 ∧ (0 : ℝ) ≤ 1 ∧ (1 : ℝ) ≤ 1 ∧
    ∃ c1 c2 : Int, get_colour Real.sqrt 0 0 (0 : ℝ) = some c1 ∧
      get_colour Real.sqrt 0 0 (1 : ℝ) = some c2 ∧
      palette_brightness c2 ≤ palette_brightness c1 :=
  ⟨isSqrt_real, le_refl 0, zero_le_one, le_refl 1,
    get_colour_brightness_antitone Real.sqrt isSqrt_real 0 0 0 1
      (le_refl 0) zero_le_one (le_refl 1)⟩

/-- The local `value` of `get_colour` at pixel `(0, 0)` for the input 0. -/
theorem get_colour_value_zero : get_colour_value Real.sqrt 0 0 (0 : ℝ) = 0 := by
  have hd : Int.tdiv (dither 0 0) 3 = 0 := by decide
  unfold get_colour_value trunc
  rw [hd, Real.sqrt_zero]
  norm_num

/-- The local `value` of `get_colour` at pixel `(0, 0)` for the input 1. -/
theorem get_colour_value_one : get_colour_value Real.sqrt 0 0 (1 : ℝ) = 3 := by
  have hd : Int.tdiv (dither 0 0) 3 = 0 := by decide
  unfold get_colour_value trunc
  rw [hd, Real.sqrt_one]
  norm_num

/-- Counterexample to C13 as stated: at pixel `(0, 0)` the input 0 selects
index 3 (white, brightness 765) and the brighter input 1 selects index 0
(black, brightness 0), which is strictly darker. -/
theorem get_colour_brighter_input_darker :
    (0 : ℝ) ≤ 0 ∧ (0 : ℝ) ≤ 1 ∧ (1 : ℝ) ≤ 1 ∧
    get_colour Real.sqrt 0 0 (0 : ℝ) = some 3 ∧
    get_colour Real.sqrt 0 0 (1 : ℝ) = some 0 ∧
    palette_brightness 3 = 765 ∧ palette_brightness 0 = 0 ∧
    ¬ palette_brightness 3 ≤ palette_brightness 0 := by
  refine ⟨le_refl 0, zero_le_one, le_refl 1, ?_, ?_, rfl, rfl, by decide⟩
  · rw [get_colour_eq Real.sqrt isSqrt_real 0 0 0 (le_refl 0) zero_le_one,
      get_colour_value_zero]
    rfl
  · rw [get_colour_eq Real.sqrt isSqrt_real 0 0 1 zero_le_one (le_refl 1),
      get_colour_value_one]
    rfl

end QuantiseProofs

/-! ## A scene on which the bounce loop does not end -/

section FacingProofs

variable {F : Type} [LinearOrderedField F]

/-- From `facing_ray` the search selects the sphere at `(2, 0, 0)`, at
distance 1. -/
theorem nearest_hit_facing_ray (sqrt : F → F) (hs : IsSqrt sqrt) :
    nearest_hit sqrt facing_spheres (facing_ray : ray_t F) =
      (some (1, { position := { x := 2, y := 0, z := 0 }, radius := 1 }), 1) := by
  have h1 : sphere_intersect sqrt
      ({ position := { x := -2, y := 0, z := 0 }, radius := 1 } : sphere_t F)
      facing_ray = some (-3) := by
    rw [sphere_intersect_of_disc sqrt hs _ _ 2 (by norm_num)
      (by norm_num [quadratic_disc, quadratic_a, quadratic_b, quadratic_c, facing_ray])]
    norm_num [quadratic_a, quadratic_b, facing_ray]
  have h2 : sphere_intersect sqrt
      ({ position := { x := 2, y := 0, z := 0 }, radius := 1 } : sphere_t F)
      facing_ray = some 1 := by
    rw [sphere_intersect_of_disc sqrt hs _ _ 2 (by norm_num)
      (by norm_num [quadratic_disc, quadratic_a, quadratic_b, quadratic_c, facing_ray])]
    norm_num [quadratic_a, quadratic_b, facing_ray]
  simp only [nearest_hit, search_from, search_step, facing_spheres, h1, h2]
  norm_num [DBL_MAX]

/-- From `facing_ray_right` the search selects the sphere at `(-2, 0, 0)`, at
distance 2. -/
theorem nearest_hit_facing_ray_right (sqrt : F → F) (hs : IsSqrt sqrt) :
    nearest_hit sqrt facing_spheres (facing_ray_right : ray_t F) =
      (some (0, { position := { x := -2, y := 0, z := 0 }, radius := 1 }), 2) := by
  have h1 : sphere_intersect sqrt
      ({ position := { x := -2, y := 0, z := 0 }, radius := 1 } : sphere_t F)
      facing_ray_right = some 2 := by
    rw [sphere_intersect_of_disc sqrt hs _ _ 2 (by norm_num)
      (by norm_num [quadratic_disc, quadratic_a, quadratic_b, quadratic_c, facing_ray_right])]
    norm_num [quadratic_a, quadratic_b, facing_ray_right]
  have h2 : sphere_intersect sqrt
      ({ position := { x := 2, y := 0, z := 0 }, radius := 1 } : sphere_t F)
      facing_ray_right = some (-2) := by
    rw [sphere_intersect_of_disc sqrt hs _ _ 2 (by norm_num)
      (by norm_num [quadratic_disc, quadratic_a, quadratic_b, quadratic_c, facing_ray_right])]
    norm_num [quadratic_a, quadratic_b, facing_ray_right]
  simp only [nearest_hit, search_from, search_step, facing_spheres, h1, h2]
  norm_num [DBL_MAX]

/-- From `facing_ray_left` the search selects the sphere at `(2, 0, 0)`, at
distance 2. -/
theorem nearest_hit_facing_ray_left (sqrt : F → F) (hs : IsSqrt sqrt) :
    nearest_hit sqrt facing_spheres (facing_ray_left : ray_t F) =
      (some (1, { position := { x := 2, y := 0, z := 0 }, radius := 1 }), 2) := by
  have h1 : sphere_intersect sqrt
      ({ position := { x := -2, y := 0, z := 0 }, radius := 1 } : sphere_t F)
      facing_ray_left = some (-2) := by
    rw [sphere_intersect_of_disc sqrt hs _ _ 2 (by norm_num)
      (by norm_num [quadratic_disc, quadratic_a, quadratic_b, quadratic_c, facing_ray_left])]
    norm_num [quadratic_a, quadratic_b, facing_ray_left]
  have h2 : sphere_intersect sqrt
      ({ position := { x := 2, y := 0, z := 0 }, radius := 1 } : sphere_t F)
      facing_ray_left = some 2 := by
    rw [sphere_intersect_of_disc sqrt hs _ _ 2 (by norm_num)
      (by norm_num [quadratic_disc, quadratic_a, quadratic_b, quadratic_c, facing_ray_left])]
    norm_num [quadratic_a, quadratic_b, facing_ray_left]
  simp only [nearest_hit, search_from, search_step, facing_spheres, h1, h2]
  norm_num [DBL_MAX]

/-- The bounce of `facing_ray` off the sphere at `(2, 0, 0)`. -/
theorem sphere_reflect_facing_ray :
    sphere_reflect ({ position := { x := 2, y := 0, z := 0 }, radius := 1 } : sphere_t F)
      1 facing_ray = facing_ray_right := by
  simp only [sphere_reflect, vector_reflect, vector_div, vector_sub, vector_dot_product,
    facing_ray, facing_ray_right]
  norm_num

/-- The bounce of `facing_ray_right` off the sphere at `(-2, 0, 0)`. -/
theorem sphere_reflect_facing_ray_right :
    sphere_reflect ({ position := { x := -2, y := 0, z := 0 }, radius := 1 } : sphere_t F)
      2 facing_ray_right = facing_ray_left := by
  simp only [sphere_reflect, vector_reflect, vector_div, vector_sub, vector_dot_product,
    facing_ray_left, facing_ray_right]
  norm_num

/-- The bounce of `facing_ray_left` off the sphere at `(2, 0, 0)`. -/
theorem sphere_reflect_facing_ray_left :
    sphere_reflect ({ position := { x := 2, y := 0, z := 0 }, radius := 1 } : sphere_t F)
      2 facing_ray_left = facing_ray_right := by
  simp only [sphere_reflect, vector_reflect, vector_div, vector_sub, vector_dot_product,
    facing_ray_left, facing_ray_right]
  norm_num

/-- From the two rays of the cycle the bounce loop uses up every bound. -/
theorem bounce_loop_facing_cycle (sqrt : F → F) (hs : IsSqrt sqrt) (fuel : Nat) :
    bounce_loop sqrt facing_spheres fuel (facing_ray_right : ray_t F) = none ∧
    bounce_loop sqrt facing_spheres fuel (facing_ray_left : ray_t F) = none := by
  induction fuel with
  | zero => exact ⟨rfl, rfl⟩
  | succ fuel ih =>
    constructor
    · unfold bounce_loop
      rw [nearest_hit_facing_ray_right sqrt hs]
      simp only [sphere_reflect_facing_ray_right, ih.2]
    · unfold bounce_loop
      rw [nearest_hit_facing_ray_left sqrt hs]
      simp only [sphere_reflect_facing_ray_left, ih.1]

/-- After any number of bounces a ray of the cycle is again a ray of the
cycle. -/
theorem ray_after_facing_cycle (sqrt : F → F) (hs : IsSqrt sqrt) (n : Nat) :
    (ray_after sqrt facing_spheres n (facing_ray_right : ray_t F) = some facing_ray_right ∨
      ray_after sqrt facing_spheres n (facing_ray_right : ray_t F) = some facing_ray_left) ∧
    (ray_after sqrt facing_spheres n (facing_ray_left : ray_t F) = some facing_ray_right ∨
      ray_after sqrt facing_spheres n (facing_ray_left : ray_t F) = some facing_ray_left) := by
  induction n with
  | zero => exact ⟨Or.inl rfl, Or.inr rfl⟩
  | succ n ih =>
    constructor
    · unfold ray_after
      rw [nearest_hit_facing_ray_right sqrt hs]
      simp only [sphere_reflect_facing_ray_right]
      exact ih.2
    · unfold ray_after
      rw [nearest_hit_facing_ray_left sqrt hs]
      simp only [sphere_reflect_facing_ray_left]
      exact ih.1

/-- C15: the bounce loop has no termination guarantee: for the two spheres of
radius 1 centred at `(-2, 0, 0)` and `(2, 0, 0)` and the ray from `(0, 0, 0)`
with the unit direction `(1, 0, 0)`, after every number `n` of bounces the
nearest-hit search still selects a sphere at a strictly positive distance, and
the loop reaches `break` within no bound on its passes. -/
theorem bounce_loop_never_escapes (sqrt : F → F) (hs : IsSqrt sqrt) :
    (∀ s ∈ (facing_spheres : List (sphere_t F)), 0 < s.radius) ∧
    vector_magnitude_squared (facing_ray : ray_t F).direction = 1 ∧
    (∀ n : Nat, ∃ (r : ray_t F) (k : Nat) (s : sphere_t F),
      ray_after sqrt facing_spheres n facing_ray = some r ∧
      (nearest_hit sqrt facing_spheres r).1 = some (k, s) ∧
      0 < (nearest_hit sqrt facing_spheres r).2) ∧
    (∀ fuel : Nat, bounce_loop sqrt facing_spheres fuel (facing_ray : ray_t F) = none) := by
  refine ⟨?_, ?_, fun n => ?_, fun fuel => ?_⟩
  · intro s hmem
    simp only [facing_spheres, List.mem_cons, List.mem_singleton, List.not_mem_nil,
      or_false] at hmem
    rcases hmem with h | h <;> rw [h] <;> exact one_pos
  · norm_num [vector_magnitude_squared, vector_dot_product, facing_ray]
  · have hright : (nearest_hit sqrt facing_spheres (facing_ray_right : ray_t F)).1
          = some (0, { position := { x := -2, y := 0, z := 0 }, radius := 1 }) ∧
        0 < (nearest_hit sqrt facing_spheres (facing_ray_right : ray_t F)).2 := by
      rw [nearest_hit_facing_ray_right sqrt hs]; exact ⟨rfl, by norm_num⟩
    have hleft : (nearest_hit sqrt facing_spheres (facing_ray_left : ray_t F)).1
          = some (1, { position := { x := 2, y := 0, z := 0 }, radius := 1 }) ∧
        0 < (nearest_hit sqrt facing_spheres (facing_ray_left : ray_t F)).2 := by
      rw [nearest_hit_facing_ray_left sqrt hs]; exact ⟨rfl, by norm_num⟩
    cases n with
    | zero =>
      refine ⟨facing_ray, 1, { position := { x := 2, y := 0, z := 0 }, radius := 1 },
        rfl, ?_, ?_⟩
      · rw [nearest_hit_facing_ray sqrt hs]
      · rw [nearest_hit_facing_ray sqrt hs]; norm_num
    | succ n =>
      have hstep : ray_after sqrt facing_spheres (n + 1) (facing_ray : ray_t F)
          = ray_after sqrt facing_spheres n facing_ray_right := by
        rw [ray_after, nearest_hit_facing_ray sqrt hs]
        simp only [sphere_reflect_facing_ray]
      rcases (ray_after_facing_cycle sqrt hs n).1 with h | h
      · exact ⟨facing_ray_right, 0, _, by rw [hstep, h], hright.1, hright.2⟩
      · exact ⟨facing_ray_left, 1, _, by rw [hstep, h], hleft.1, hleft.2⟩
  · cases fuel with
    | zero => rfl
    | succ fuel =>
      unfold bounce_loop
      rw [nearest_hit_facing_ray sqrt hs]
      simp only [sphere_reflect_facing_ray, (bounce_loop_facing_cycle sqrt hs fuel).1]

/-- Witness of C15 over the reals: with a bound of 1000 passes the loop has
not reached `break`. -/
theorem bounce_loop_never_escapes_witness :
    IsSqrt Real.sqrt ∧
    bounce_loop Real.sqrt facing_spheres 1000 (facing_ray : ray_t ℝ) = none :=
  ⟨isSqrt_real, (bounce_loop_never_escapes Real.sqrt isSqrt_real).2.2.2 1000⟩

end FacingProofs

end Raytracer
